import Mathlib

/-!
# SplashKit point geometry (`coresdk/src/coresdk/point_geometry.cpp`)

A shallow embedding of the point-membership predicates of `point_geometry.cpp`.

The C++ `float` is idealised as an exact linearly ordered field `K`: every
definition is computable at `K := ℚ` and every theorem also holds at `K := ℝ`.
The functions whose result depends on rounding, `point_in_triangle` and
`point_on_line`, are also embedded in `float` arithmetic (`point_in_triangle_f32`,
`point_on_line_f32`), every operation rounded to nearest as IEEE 754 binary32.
The conversion `static_cast<int>` is idealised as truncation toward zero onto
the unbounded integers (the C++ conversion is only defined when the truncated
value is representable); `static_cast_int_checked` is the conversion restricted
to the range of a 32-bit `int` and `static_cast_int_x86` the conversion as x86-64
carries it out. The square root behind `point_point_distance`
is an exact square root (`ExactSqrt`), which the reals provide.
-/

namespace SplashKit

/-! ## Data model (the declarations of `types.h` are not part of the sources) -/

/-- Modelled from the spec: the value type `point_2d` of the missing `types.h`,
"Point2D: {x: float, y: float}". -/
structure point_2d (K : Type) where
  x : K
  y : K

/-- Modelled from the spec: the displacement type `vector_2d` of the missing `types.h`. -/
structure vector_2d (K : Type) where
  x : K
  y : K

/-- Modelled from the spec: the type `triangle` of the missing `types.h`,
"exactly 3 vertices (points[0..2])". -/
structure triangle (K : Type) where
  points : Fin 3 → point_2d K

/-- Modelled from the spec: the type `line` of the missing `types.h`,
"{start_point: Point2D, end_point: Point2D}". -/
structure line (K : Type) where
  start_point : point_2d K
  end_point : point_2d K

/-- Modelled from the spec: the type `rectangle` of the missing `types.h`, known here only
through its four bound accessors ("external type exposing left/right/top/bottom accessors"). -/
structure rectangle (K : Type) where
  left : K
  right : K
  top : K
  bottom : K

section Helpers

variable {K : Type} [LinearOrderedField K]

/-! ## Helpers of the vector/geometry package (`vector_2d.h`, `geometry.h`: not in the sources) -/

/-- Modelled from the spec: `vector_to_point` of the missing `vector_2d.h`, the
"point-to-vector conversion" (the point seen as a vector from the origin). -/
def vector_to_point (pt : point_2d K) : vector_2d K := ⟨pt.x, pt.y⟩

/-- Modelled from the spec: `vector_subtract` of the missing `vector_2d.h`,
"vector subtraction" (`v0 = c−a`). -/
def vector_subtract (v1 v2 : vector_2d K) : vector_2d K := ⟨v1.x - v2.x, v1.y - v2.y⟩

/-- Modelled from the spec: `dot_product` of the missing `vector_2d.h`. -/
def dot_product (v1 v2 : vector_2d K) : K := v1.x * v2.x + v1.y * v2.y

/-- Modelled from the spec: `line_length_squared` of the missing `geometry.h`,
"squared length of the segment". -/
def line_length_squared (l : line K) : K :=
  (l.end_point.x - l.start_point.x) * (l.end_point.x - l.start_point.x)
    + (l.end_point.y - l.start_point.y) * (l.end_point.y - l.start_point.y)

/-- Modelled from the spec: the macro `MIN` of the missing `utility_functions.h`
(the smaller of its two arguments). -/
def MIN (a b : K) : K := if a < b then a else b

/-- Modelled from the spec: the macro `MAX` of the missing `utility_functions.h`
(the larger of its two arguments). -/
def MAX (a b : K) : K := if a > b then a else b

/-- Modelled from the spec: accessor `rectangle_left` of the missing `geometry.h`. -/
def rectangle_left (rect : rectangle K) : K := rect.left

/-- Modelled from the spec: accessor `rectangle_right` of the missing `geometry.h`. -/
def rectangle_right (rect : rectangle K) : K := rect.right

/-- Modelled from the spec: accessor `rectangle_top` of the missing `geometry.h`. -/
def rectangle_top (rect : rectangle K) : K := rect.top

/-- Modelled from the spec: accessor `rectangle_bottom` of the missing `geometry.h`. -/
def rectangle_bottom (rect : rectangle K) : K := rect.bottom

/-- Modelled from the spec: `rectangle_around` of the missing `geometry.h`, the
"rectangle bounding-box-of-line": the segment's axis-aligned bounding rectangle. -/
def rectangle_around (l : line K) : rectangle K :=
  { left := MIN l.start_point.x l.end_point.x
    right := MAX l.start_point.x l.end_point.x
    top := MIN l.start_point.y l.end_point.y
    bottom := MAX l.start_point.y l.end_point.y }

/-- The conversion `static_cast<int>(x)` of a `float`: the fractional part is discarded,
toward zero. -/
def static_cast_int [FloorRing K] (x : K) : Int := if 0 ≤ x then ⌊x⌋ else ⌈x⌉

/-! ## The functions of `point_geometry.cpp` -/

/-- The tolerance `#define SMALL 0.9`. -/
def SMALL : K := 9 / 10

/-- `point_at` (lines 28-34). -/
def point_at (x y : K) : point_2d K := ⟨x, y⟩

/-- `point_in_triangle` (lines 72-107), the `float` operations taken as exact operations
of `K`; `point_in_triangle_f32` is the function with every operation rounded. -/
def point_in_triangle (pt : point_2d K) (tri : triangle K) : Bool :=
  let p := vector_to_point pt
  let a := vector_to_point (tri.points 0)
  let b := vector_to_point (tri.points 1)
  let c := vector_to_point (tri.points 2)
  let v0 := vector_subtract c a
  let v1 := vector_subtract b a
  let v2 := vector_subtract p a
  let dot00 := dot_product v0 v0
  let dot01 := dot_product v0 v1
  let dot02 := dot_product v0 v2
  let dot11 := dot_product v1 v1
  let dot12 := dot_product v1 v2
  if dot00 * dot11 - dot01 * dot01 = 0 then false
  else
    let inv_denom := 1 / (dot00 * dot11 - dot01 * dot01)
    let u := (dot11 * dot02 - dot01 * dot12) * inv_denom
    let v := (dot00 * dot12 - dot01 * dot02) * inv_denom
    decide (u > 0) && decide (v > 0) && decide (u + v < 1)

/-- `point_in_rectangle` (lines 109-116). -/
def point_in_rectangle (pt : point_2d K) (rect : rectangle K) : Bool :=
  if pt.x < rectangle_left rect then false
  else if pt.x > rectangle_right rect then false
  else if pt.y < rectangle_top rect then false
  else if pt.y > rectangle_bottom rect then false
  else true

/-- `same_point` (lines 118-121). -/
def same_point [FloorRing K] (pt1 pt2 : point_2d K) : Bool :=
  decide (static_cast_int pt1.x = static_cast_int pt2.x)
    && decide (static_cast_int pt1.y = static_cast_int pt2.y)

/-- The lambda `simple_comparison_x_same` of `point_on_line` (lines 130-138). -/
def simple_comparison_x_same (pt : point_2d K) (l : line K) : Bool :=
  let min_y := MIN l.start_point.y l.end_point.y
  let max_y := MAX l.start_point.y l.end_point.y
  decide (pt.x ≥ l.start_point.x - SMALL) && decide (pt.x ≤ l.start_point.x + SMALL)
    && decide (pt.y ≥ min_y) && decide (pt.y ≤ max_y)

/-- The lambda `simple_comparison_y_same` of `point_on_line` (lines 140-148). -/
def simple_comparison_y_same (pt : point_2d K) (l : line K) : Bool :=
  let min_x := MIN l.start_point.x l.end_point.x
  let max_x := MAX l.start_point.x l.end_point.x
  decide (pt.y ≥ l.start_point.y - SMALL) && decide (pt.y ≤ l.start_point.y + SMALL)
    && decide (pt.x ≥ min_x) && decide (pt.x ≤ max_x)

/-- `point_on_line` (lines 128-180), the `float` operations taken as exact operations of
`K` and the conversion to `int` as truncation onto the unbounded integers;
`point_on_line_f32` is the function with every operation rounded, `point_on_line_cast` the
function over a conversion that may be undefined. -/
def point_on_line [FloorRing K] (pt : point_2d K) (l : line K) : Bool :=
  let sq_line_mag := line_length_squared l
  if sq_line_mag < 1 then
    same_point pt l.start_point || same_point pt l.end_point
  else if l.end_point.x = l.start_point.x then
    simple_comparison_x_same pt l
  else if l.end_point.y = l.start_point.y then
    simple_comparison_y_same pt l
  else
    let m := (l.end_point.y - l.start_point.y) / (l.end_point.x - l.start_point.x)
    let c := l.start_point.y - (m * l.start_point.x)
    let ly := (m * pt.x) + c
    let lx := (pt.y - c) / m
    decide (lx ≥ pt.x - SMALL) && decide (lx ≤ pt.x + SMALL)
      && decide (ly ≥ pt.y - SMALL) && decide (ly ≤ pt.y + SMALL)
      && point_in_rectangle pt (rectangle_around l)

/-! ## Vocabulary of the specification -/

/-- Twice the signed area of the triangle `a b c`. -/
def area2 (a b c : point_2d K) : K :=
  (b.x - a.x) * (c.y - a.y) - (b.y - a.y) * (c.x - a.x)

/-- Three points are collinear (two or three of them may coincide): the triangle
they span has zero area. -/
def collinear (a b c : point_2d K) : Prop := area2 a b c = 0

instance (a b c : point_2d K) : Decidable (collinear a b c) := by
  unfold collinear; infer_instance

/-- The point `p` lies on the closed segment from `s` to `e`. -/
def on_segment (s e p : point_2d K) : Prop :=
  ∃ t : K, 0 ≤ t ∧ t ≤ 1 ∧ p.x = s.x + t * (e.x - s.x) ∧ p.y = s.y + t * (e.y - s.y)

/-- The point `p` is strictly interior to the triangle `a b c`: a combination of the
vertices with strictly positive weights of sum one. -/
def strictly_interior (p a b c : point_2d K) : Prop :=
  ∃ wa wb wc : K, 0 < wa ∧ 0 < wb ∧ 0 < wc ∧ wa + wb + wc = 1 ∧
    p.x = wa * a.x + wb * b.x + wc * c.x ∧ p.y = wa * a.y + wb * b.y + wc * c.y

/-- The triangle `a b c` has non-zero area and each of the three sub-triangles seen from `p`
has the orientation of `a b c`. -/
def inside_areas (p a b c : point_2d K) : Prop :=
  area2 a b c ≠ 0 ∧ 0 < area2 p b c * area2 a b c ∧ 0 < area2 a p c * area2 a b c ∧
    0 < area2 a b p * area2 a b c

/-- The slope `m` of the line through a segment that is not vertical. -/
def line_slope (l : line K) : K :=
  (l.end_point.y - l.start_point.y) / (l.end_point.x - l.start_point.x)

/-- The intercept `c = start.y - m * start.x` of the line through a segment. -/
def line_intercept (l : line K) : K := l.start_point.y - line_slope l * l.start_point.x

/-- The point `pt` is inside the axis-aligned bounding box of the segment `l`, bounds
included. -/
def in_bounding_box (pt : point_2d K) (l : line K) : Prop :=
  min l.start_point.x l.end_point.x ≤ pt.x ∧ pt.x ≤ max l.start_point.x l.end_point.x ∧
    min l.start_point.y l.end_point.y ≤ pt.y ∧ pt.y ≤ max l.start_point.y l.end_point.y

/-- The value `u` computed by `point_in_triangle` written as a quotient (first barycentric
coordinate, the weight of `points[2]`). -/
def bary_u (pt : point_2d K) (tri : triangle K) : K :=
  let v0 := vector_subtract (vector_to_point (tri.points 2)) (vector_to_point (tri.points 0))
  let v1 := vector_subtract (vector_to_point (tri.points 1)) (vector_to_point (tri.points 0))
  let v2 := vector_subtract (vector_to_point pt) (vector_to_point (tri.points 0))
  (dot_product v1 v1 * dot_product v0 v2 - dot_product v0 v1 * dot_product v1 v2)
    / (dot_product v0 v0 * dot_product v1 v1 - dot_product v0 v1 * dot_product v0 v1)

/-- The value `v` computed by `point_in_triangle` written as a quotient (second barycentric
coordinate, the weight of `points[1]`). -/
def bary_v (pt : point_2d K) (tri : triangle K) : K :=
  let v0 := vector_subtract (vector_to_point (tri.points 2)) (vector_to_point (tri.points 0))
  let v1 := vector_subtract (vector_to_point (tri.points 1)) (vector_to_point (tri.points 0))
  let v2 := vector_subtract (vector_to_point pt) (vector_to_point (tri.points 0))
  (dot_product v0 v0 * dot_product v1 v2 - dot_product v0 v1 * dot_product v0 v2)
    / (dot_product v0 v0 * dot_product v1 v1 - dot_product v0 v1 * dot_product v0 v1)

end Helpers

section Distance

/-! ## Distance, circles and random points -/

/-- Modelled from the spec: the square root `sqrt` of `<cmath>`, reached through the missing
`vector_magnitude`; `float` being idealised as exact arithmetic, it is an exact square root
on the non-negative elements of `K`. -/
class ExactSqrt (K : Type) [LinearOrderedField K] where
  sqrt : K → K
  sqrt_nonneg : ∀ x : K, 0 ≤ x → 0 ≤ sqrt x
  sqrt_mul_self : ∀ x : K, 0 ≤ x → sqrt x * sqrt x = x

noncomputable instance : ExactSqrt ℝ where
  sqrt := Real.sqrt
  sqrt_nonneg := fun x _ => Real.sqrt_nonneg x
  sqrt_mul_self := fun _ hx => Real.mul_self_sqrt hx

/-- Modelled from the spec: the type `circle` of the missing `types.h`,
"{center: Point2D, radius: float}". -/
structure circle (K : Type) where
  center : point_2d K
  radius : K

/-- Modelled from the spec: the type `window` of the missing `types.h`, a display surface
known here only through its `width` and `height` queries. -/
structure window (K : Type) where
  width : K
  height : K

/-- Modelled from the spec: the type `bitmap` of the missing `types.h`, known here only
through its `width` and `height` queries. -/
structure bitmap (K : Type) where
  width : K
  height : K

/-- Modelled from the spec: the state behind the "current window" resolver of the missing
`graphics.h`: the window that is current. -/
structure display (K : Type) where
  current : window K

variable {K : Type} [LinearOrderedField K]

/-- Modelled from the spec: `vector_point_to_point` of the missing `vector_2d.h`,
"the vector from `p1` to `p2`". -/
def vector_point_to_point (pt1 pt2 : point_2d K) : vector_2d K :=
  ⟨pt2.x - pt1.x, pt2.y - pt1.y⟩

/-- Modelled from the spec: `vector_magnitude` of the missing `vector_2d.h`, the Euclidean
length `sqrt(x*x + y*y)` of a vector. -/
def vector_magnitude [ExactSqrt K] (v : vector_2d K) : K :=
  ExactSqrt.sqrt (v.x * v.x + v.y * v.y)

/-- `point_point_distance` (lines 195-199). -/
def point_point_distance [ExactSqrt K] (pt1 pt2 : point_2d K) : K :=
  let temp := vector_point_to_point pt1 pt2
  vector_magnitude temp

/-- `point_in_circle` (lines 123-126). -/
def point_in_circle [ExactSqrt K] (pt : point_2d K) (c : circle K) : Bool :=
  decide (point_point_distance c.center pt ≤ |c.radius|)

/-- Modelled from the spec: `current_window` of the missing `graphics.h`, the
"current window" resolver. -/
def current_window (d : display K) : window K := d.current

/-- Modelled from the spec: `window_width`, the `width` query of a window. -/
def window_width (wind : window K) : K := wind.width

/-- Modelled from the spec: `window_height`, the `height` query of a window. -/
def window_height (wind : window K) : K := wind.height

/-- Modelled from the spec: `screen_width` of the missing `graphics.h`, the `width` query of
the current display surface; it takes no window argument. -/
def screen_width (d : display K) : K := window_width (current_window d)

/-- Modelled from the spec: `screen_height` of the missing `graphics.h`, the `height` query
of the current display surface; it takes no window argument. -/
def screen_height (d : display K) : K := window_height (current_window d)

/-- Modelled from the spec: `bitmap_width`, the `width` query of a bitmap. -/
def bitmap_width (bmp : bitmap K) : K := bmp.width

/-- Modelled from the spec: `bitmap_height`, the `height` query of a bitmap. -/
def bitmap_height (bmp : bitmap K) : K := bmp.height

/-- `random_window_point` (lines 56-62). The two calls of `rnd()` are the draws `r1` then
`r2`; the display state read by `screen_width()` and `screen_height()` is `d`. -/
def random_window_point (d : display K) (_wind : window K) (r1 r2 : K) : point_2d K :=
  { x := r1 * screen_width d
    y := r2 * screen_height d }

/-- `random_screen_point` (lines 51-54). -/
def random_screen_point (d : display K) (r1 r2 : K) : point_2d K :=
  random_window_point d (current_window d) r1 r2

/-- `random_bitmap_point` (lines 64-70). -/
def random_bitmap_point (bmp : bitmap K) (r1 r2 : K) : point_2d K :=
  { x := r1 * bitmap_width bmp
    y := r2 * bitmap_height bmp }

/-! ## The predicates with division as a partial operation -/

/-- Division that faults on a zero divisor. -/
def checked_div (a b : K) : Option K := if b = 0 then none else some (a / b)

/-- `point_in_triangle` (lines 72-107) with its division `1 / (...)` made partial. -/
def point_in_triangle_checked (pt : point_2d K) (tri : triangle K) : Option Bool :=
  let p := vector_to_point pt
  let a := vector_to_point (tri.points 0)
  let b := vector_to_point (tri.points 1)
  let c := vector_to_point (tri.points 2)
  let v0 := vector_subtract c a
  let v1 := vector_subtract b a
  let v2 := vector_subtract p a
  let dot00 := dot_product v0 v0
  let dot01 := dot_product v0 v1
  let dot02 := dot_product v0 v2
  let dot11 := dot_product v1 v1
  let dot12 := dot_product v1 v2
  if dot00 * dot11 - dot01 * dot01 = 0 then some false
  else
    (checked_div 1 (dot00 * dot11 - dot01 * dot01)).bind fun inv_denom =>
      let u := (dot11 * dot02 - dot01 * dot12) * inv_denom
      let v := (dot00 * dot12 - dot01 * dot02) * inv_denom
      some (decide (u > 0) && decide (v > 0) && decide (u + v < 1))

/-- `point_on_line` (lines 128-180) with its two divisions made partial. -/
def point_on_line_checked [FloorRing K] (pt : point_2d K) (l : line K) : Option Bool :=
  let sq_line_mag := line_length_squared l
  if sq_line_mag < 1 then
    some (same_point pt l.start_point || same_point pt l.end_point)
  else if l.end_point.x = l.start_point.x then
    some (simple_comparison_x_same pt l)
  else if l.end_point.y = l.start_point.y then
    some (simple_comparison_y_same pt l)
  else
    (checked_div (l.end_point.y - l.start_point.y) (l.end_point.x - l.start_point.x)).bind
      fun m =>
        let c := l.start_point.y - (m * l.start_point.x)
        let ly := (m * pt.x) + c
        (checked_div (pt.y - c) m).bind fun lx =>
          some (decide (lx ≥ pt.x - SMALL) && decide (lx ≤ pt.x + SMALL)
            && decide (ly ≥ pt.y - SMALL) && decide (ly ≤ pt.y + SMALL)
            && point_in_rectangle pt (rectangle_around l))

/-! ## Truncation and the range of `int` -/

/-- The smallest value of a 32-bit `int`. -/
def INT_MIN : Int := -2147483648

/-- The largest value of a 32-bit `int`. -/
def INT_MAX : Int := 2147483647

/-- Truncation toward zero as the specification words it: the fractional part of the
magnitude is discarded and the sign is kept. -/
def trunc_toward_zero [FloorRing K] (x : K) : Int := if 0 ≤ x then ⌊|x|⌋ else -⌊|x|⌋

/-- The coordinate `x` is in the range of `int`: its truncation is representable. -/
def in_int_range [FloorRing K] (x : K) : Prop :=
  INT_MIN ≤ trunc_toward_zero x ∧ trunc_toward_zero x ≤ INT_MAX

/-- The conversion `static_cast<int>(x)`, defined only when the truncated value is
representable in `int`. -/
def static_cast_int_checked [FloorRing K] (x : K) : Option Int :=
  if INT_MIN ≤ static_cast_int x ∧ static_cast_int x ≤ INT_MAX then some (static_cast_int x)
  else none

/-- `same_point` (lines 118-121) with the conversions to `int` made partial; the operator
`and` evaluates its right operand only when the left one is true. -/
def same_point_checked [FloorRing K] (pt1 pt2 : point_2d K) : Option Bool :=
  (static_cast_int_checked pt1.x).bind fun x1 =>
    (static_cast_int_checked pt2.x).bind fun x2 =>
      if x1 = x2 then
        (static_cast_int_checked pt1.y).bind fun y1 =>
          (static_cast_int_checked pt2.y).bind fun y2 => some (decide (y1 = y2))
      else some false

end Distance

section FloatModel

/-! ## The arithmetic of `float` (IEEE 754 binary32) and `double` (binary64)

Finite values are the rationals they denote, and the arguments of the functions below are
such values. Every operation is the exact operation followed by one rounding to nearest, ties
to even (no fused multiply-add, no excess precision); gradual underflow is part of the
rounding, values beyond the largest finite number are not part of this model. -/

/-- The integer `⌊log2 n⌋` of a natural number `n ≥ 1` by repeated halving; `fuel` bounds the
number of halvings. -/
def nat_log2_fuel : Nat → Nat → Nat
  | 0, _ => 0
  | fuel + 1, n => if n < 2 then 0 else nat_log2_fuel fuel (n / 2) + 1

/-- The integer `⌊log2 n⌋` of a natural number `n ≥ 1`. -/
def nat_log2 (n : Nat) : Nat := nat_log2_fuel n n

/-- The integer `⌊log2 |x|⌋` of a non-zero rational. -/
def floor_log2 (x : ℚ) : Int :=
  let e : Int := (nat_log2 x.num.natAbs : Int) - (nat_log2 x.den : Int)
  if |x| < (2 : ℚ) ^ e then e - 1 else e

/-- Rounding to the nearest integer, ties to the even one. -/
def round_half_even (r : ℚ) : Int :=
  let f := ⌊r⌋
  if r - f < 1 / 2 then f
  else if 1 / 2 < r - f then f + 1
  else if f % 2 = 0 then f else f + 1

/-- Rounding to nearest, ties to even, onto the binary format with `p` bits of precision
whose smallest quantum is `2 ^ qmin`. -/
def round_binary (p : Nat) (qmin : Int) (x : ℚ) : ℚ :=
  if x = 0 then 0
  else
    let q : Int := max (floor_log2 x - ((p : Int) - 1)) qmin
    (round_half_even (x / (2 : ℚ) ^ q) : ℚ) * (2 : ℚ) ^ q

/-- Rounding onto `float`: 24 bits of precision, smallest quantum `2 ^ (-149)`. -/
def fl32 (x : ℚ) : ℚ := round_binary 24 (-149) x

/-- Rounding onto `double`: 53 bits of precision, smallest quantum `2 ^ (-1074)`. -/
def fl64 (x : ℚ) : ℚ := round_binary 53 (-1074) x

/-- Modelled from the spec: `vector_subtract` of the missing `vector_2d.h`, in `float`. -/
def vector_subtract_f32 (v1 v2 : vector_2d ℚ) : vector_2d ℚ :=
  ⟨fl32 (v1.x - v2.x), fl32 (v1.y - v2.y)⟩

/-- Modelled from the spec: `dot_product` of the missing `vector_2d.h`, in `float`. -/
def dot_product_f32 (v1 v2 : vector_2d ℚ) : ℚ :=
  fl32 (fl32 (v1.x * v2.x) + fl32 (v1.y * v2.y))

/-- `point_in_triangle` (lines 72-107) in `float` arithmetic: each `float` operation of the
source is rounded. -/
def point_in_triangle_f32 (pt : point_2d ℚ) (tri : triangle ℚ) : Bool :=
  let p := vector_to_point pt
  let a := vector_to_point (tri.points 0)
  let b := vector_to_point (tri.points 1)
  let c := vector_to_point (tri.points 2)
  let v0 := vector_subtract_f32 c a
  let v1 := vector_subtract_f32 b a
  let v2 := vector_subtract_f32 p a
  let dot00 := dot_product_f32 v0 v0
  let dot01 := dot_product_f32 v0 v1
  let dot02 := dot_product_f32 v0 v2
  let dot11 := dot_product_f32 v1 v1
  let dot12 := dot_product_f32 v1 v2
  if fl32 (fl32 (dot00 * dot11) - fl32 (dot01 * dot01)) = 0 then false
  else
    let inv_denom := fl32 (1 / fl32 (fl32 (dot00 * dot11) - fl32 (dot01 * dot01)))
    let u := fl32 (fl32 (fl32 (dot11 * dot02) - fl32 (dot01 * dot12)) * inv_denom)
    let v := fl32 (fl32 (fl32 (dot00 * dot12) - fl32 (dot01 * dot02)) * inv_denom)
    decide (u > 0) && decide (v > 0) && decide (fl32 (u + v) < 1)

end FloatModel


section CastModel

/-! ## The conversion to `int` outside the range of `int` -/

variable {K : Type} [LinearOrderedField K] [FloorRing K]

end CastModel




section TriangleLemmas

variable {K : Type} [LinearOrderedField K]

/-- Zero area is the same as lying on a common line `α x + β y = γ`. -/
lemma collinear_iff_common_line (a b c : point_2d K) :
    collinear a b c ↔ ∃ α β γ : K, (α ≠ 0 ∨ β ≠ 0) ∧ α * a.x + β * a.y = γ ∧
      α * b.x + β * b.y = γ ∧ α * c.x + β * c.y = γ := by
  unfold collinear area2
  constructor
  · intro h
    by_cases hb : b.x = a.x ∧ b.y = a.y
    · by_cases hc : c.x = a.x ∧ c.y = a.y
      · exact ⟨1, 0, a.x, Or.inl one_ne_zero, by ring, by rw [hb.1, hb.2]; ring,
          by rw [hc.1, hc.2]; ring⟩
      · refine ⟨-(c.y - a.y), c.x - a.x, -(c.y - a.y) * a.x + (c.x - a.x) * a.y, ?_, rfl,
          by rw [hb.1, hb.2], by ring⟩
        by_contra hne
        push_neg at hne
        exact hc ⟨by linarith [hne.2], by linarith [hne.1]⟩
    · refine ⟨-(b.y - a.y), b.x - a.x, -(b.y - a.y) * a.x + (b.x - a.x) * a.y, ?_, rfl,
        by ring, by linear_combination h⟩
      by_contra hne
      push_neg at hne
      exact hb ⟨by linarith [hne.2], by linarith [hne.1]⟩
  · rintro ⟨α, β, γ, hne, h1, h2, h3⟩
    have hα : α * ((b.x - a.x) * (c.y - a.y) - (b.y - a.y) * (c.x - a.x)) = 0 := by
      linear_combination (c.y - a.y) * (h2 - h1) - (b.y - a.y) * (h3 - h1)
    have hβ : β * ((b.x - a.x) * (c.y - a.y) - (b.y - a.y) * (c.x - a.x)) = 0 := by
      linear_combination (b.x - a.x) * (h3 - h1) - (c.x - a.x) * (h2 - h1)
    rcases hne with hne | hne
    · exact (mul_eq_zero.mp hα).resolve_left hne
    · exact (mul_eq_zero.mp hβ).resolve_left hne

/-- The three sub-areas seen from `p` add up to the area of the triangle. -/
lemma area2_sum (p a b c : point_2d K) :
    area2 p b c + area2 a p c + area2 a b p = area2 a b c := by
  unfold area2; ring

/-- The result of `point_in_triangle` in terms of signed areas: the triangle has non-zero
area and each of the three sub-triangles seen from `pt` has the orientation of the triangle. -/
lemma point_in_triangle_iff_area (pt : point_2d K) (tri : triangle K) :
    point_in_triangle pt tri = true ↔
      area2 (tri.points 0) (tri.points 1) (tri.points 2) ≠ 0 ∧
      0 < area2 pt (tri.points 1) (tri.points 2)
            * area2 (tri.points 0) (tri.points 1) (tri.points 2) ∧
      0 < area2 (tri.points 0) pt (tri.points 2)
            * area2 (tri.points 0) (tri.points 1) (tri.points 2) ∧
      0 < area2 (tri.points 0) (tri.points 1) pt
            * area2 (tri.points 0) (tri.points 1) (tri.points 2) := by
  simp only [point_in_triangle, vector_to_point, vector_subtract, dot_product, area2]
  obtain ⟨px, py⟩ := pt
  generalize tri.points 0 = a
  generalize tri.points 1 = b
  generalize tri.points 2 = c
  obtain ⟨ax, ay⟩ := a
  obtain ⟨bx, b_y⟩ := b
  obtain ⟨cx, cy⟩ := c
  simp only
  set D : K := (bx - ax) * (cy - ay) - (b_y - ay) * (cx - ax) with hD
  have hden : ((cx - ax) * (cx - ax) + (cy - ay) * (cy - ay))
        * ((bx - ax) * (bx - ax) + (b_y - ay) * (b_y - ay))
      - ((cx - ax) * (bx - ax) + (cy - ay) * (b_y - ay))
        * ((cx - ax) * (bx - ax) + (cy - ay) * (b_y - ay)) = D * D := by
    rw [hD]; ring
  have hu : ((bx - ax) * (bx - ax) + (b_y - ay) * (b_y - ay))
        * ((cx - ax) * (px - ax) + (cy - ay) * (py - ay))
      - ((cx - ax) * (bx - ax) + (cy - ay) * (b_y - ay))
        * ((bx - ax) * (px - ax) + (b_y - ay) * (py - ay))
      = ((bx - ax) * (py - ay) - (b_y - ay) * (px - ax)) * D := by
    rw [hD]; ring
  have hv : ((cx - ax) * (cx - ax) + (cy - ay) * (cy - ay))
        * ((bx - ax) * (px - ax) + (b_y - ay) * (py - ay))
      - ((cx - ax) * (bx - ax) + (cy - ay) * (b_y - ay))
        * ((cx - ax) * (px - ax) + (cy - ay) * (py - ay))
      = ((px - ax) * (cy - ay) - (py - ay) * (cx - ax)) * D := by
    rw [hD]; ring
  have hsum : (bx - px) * (cy - py) - (b_y - py) * (cx - px)
      = D - ((bx - ax) * (py - ay) - (b_y - ay) * (px - ax))
          - ((px - ax) * (cy - ay) - (py - ay) * (cx - ax)) := by
    rw [hD]; ring
  simp only [hden, hu, hv, hsum]
  generalize (bx - ax) * (py - ay) - (b_y - ay) * (px - ax) = Ac
  generalize (px - ax) * (cy - ay) - (py - ay) * (cx - ax) = Ab
  clear_value D
  by_cases h0 : D = 0
  · simp [h0]
  · have hpos : 0 < D * D := mul_self_pos.mpr h0
    have hinv : 0 < 1 / (D * D) := one_div_pos.mpr hpos
    simp only [mul_self_eq_zero, h0, if_false, Bool.and_eq_true, decide_eq_true_eq, gt_iff_lt,
      ne_eq, not_false_eq_true, true_and]
    have e1 : Ac * D * (1 / (D * D)) + Ab * D * (1 / (D * D)) < 1 ↔ 0 < (D - Ac - Ab) * D := by
      have e2 : (D - Ac - Ab) * D = D * D - (Ac * D + Ab * D) := by ring
      rw [← add_mul, mul_one_div, div_lt_one hpos, e2, sub_pos]
    rw [mul_pos_iff_of_pos_right hinv, mul_pos_iff_of_pos_right hinv, e1]
    tauto


/-- The denominator of `point_in_triangle` is the square of the doubled area. -/
lemma bary_denom_eq (tri : triangle K) :
    dot_product (vector_subtract (vector_to_point (tri.points 2)) (vector_to_point (tri.points 0)))
        (vector_subtract (vector_to_point (tri.points 2)) (vector_to_point (tri.points 0)))
      * dot_product (vector_subtract (vector_to_point (tri.points 1)) (vector_to_point (tri.points 0)))
        (vector_subtract (vector_to_point (tri.points 1)) (vector_to_point (tri.points 0)))
      - dot_product (vector_subtract (vector_to_point (tri.points 2)) (vector_to_point (tri.points 0)))
        (vector_subtract (vector_to_point (tri.points 1)) (vector_to_point (tri.points 0)))
      * dot_product (vector_subtract (vector_to_point (tri.points 2)) (vector_to_point (tri.points 0)))
        (vector_subtract (vector_to_point (tri.points 1)) (vector_to_point (tri.points 0)))
      = area2 (tri.points 0) (tri.points 1) (tri.points 2)
        * area2 (tri.points 0) (tri.points 1) (tri.points 2) := by
  simp only [vector_to_point, vector_subtract, dot_product, area2]; ring

/-- On a triangle of non-zero area the computed `u` is the area ratio giving the weight
of `points[2]`. -/
lemma bary_u_eq (pt : point_2d K) (tri : triangle K)
    (h : area2 (tri.points 0) (tri.points 1) (tri.points 2) ≠ 0) :
    bary_u pt tri = area2 (tri.points 0) (tri.points 1) pt
      / area2 (tri.points 0) (tri.points 1) (tri.points 2) := by
  unfold bary_u
  simp only [bary_denom_eq]
  rw [div_eq_div_iff (mul_ne_zero h h) h]
  simp only [vector_to_point, vector_subtract, dot_product, area2]; ring

/-- On a triangle of non-zero area the computed `v` is the area ratio giving the weight
of `points[1]`. -/
lemma bary_v_eq (pt : point_2d K) (tri : triangle K)
    (h : area2 (tri.points 0) (tri.points 1) (tri.points 2) ≠ 0) :
    bary_v pt tri = area2 (tri.points 0) pt (tri.points 2)
      / area2 (tri.points 0) (tri.points 1) (tri.points 2) := by
  unfold bary_v
  simp only [bary_denom_eq]
  rw [div_eq_div_iff (mul_ne_zero h h) h]
  simp only [vector_to_point, vector_subtract, dot_product, area2]; ring

/-- A quotient by a non-zero `d` is positive exactly when the product with `d` is. -/
lemma div_pos_iff_mul_pos {x d : K} (hd : d ≠ 0) : 0 < x / d ↔ 0 < x * d := by
  have h2 : 0 < d * d := mul_self_pos.mpr hd
  have e : x / d = x * d / (d * d) := by field_simp; ring
  rw [e, div_pos_iff_of_pos_right h2]

/-- Strict interiority in terms of signed areas, on a triangle of non-zero area. -/
lemma strictly_interior_iff_area (p a b c : point_2d K) (h : area2 a b c ≠ 0) :
    strictly_interior p a b c ↔
      0 < area2 p b c * area2 a b c ∧ 0 < area2 a p c * area2 a b c ∧
        0 < area2 a b p * area2 a b c := by
  have h2 : 0 < area2 a b c * area2 a b c := mul_self_pos.mpr h
  constructor
  · rintro ⟨wa, wb, wc, ha, hb, hc, hs, hx, hy⟩
    have hwa : wa = 1 - wb - wc := by linarith
    have e1 : area2 p b c = wa * area2 a b c := by
      unfold area2; rw [hx, hy, hwa]; ring
    have e2 : area2 a p c = wb * area2 a b c := by
      unfold area2; rw [hx, hy, hwa]; ring
    have e3 : area2 a b p = wc * area2 a b c := by
      unfold area2; rw [hx, hy, hwa]; ring
    rw [e1, e2, e3]
    refine ⟨?_, ?_, ?_⟩
    · rw [mul_assoc]; exact mul_pos ha h2
    · rw [mul_assoc]; exact mul_pos hb h2
    · rw [mul_assoc]; exact mul_pos hc h2
  · rintro ⟨h1, h3, h4⟩
    refine ⟨area2 p b c / area2 a b c, area2 a p c / area2 a b c, area2 a b p / area2 a b c,
      (div_pos_iff_mul_pos h).mpr h1, (div_pos_iff_mul_pos h).mpr h3,
      (div_pos_iff_mul_pos h).mpr h4, ?_, ?_, ?_⟩
    · rw [← add_div, ← add_div, area2_sum, div_self h]
    · unfold area2 at h ⊢; field_simp; ring
    · unfold area2 at h ⊢; field_simp; ring

/-- Exchanging the first two vertices does not change the acceptance condition. -/
lemma inside_areas_swap01 (p a b c : point_2d K) :
    inside_areas p a b c ↔ inside_areas p b a c := by
  have e0 : area2 b a c = - area2 a b c := by unfold area2; ring
  have e1 : area2 p a c * area2 b a c = area2 a p c * area2 a b c := by unfold area2; ring
  have e2 : area2 b p c * area2 b a c = area2 p b c * area2 a b c := by unfold area2; ring
  have e3 : area2 b a p * area2 b a c = area2 a b p * area2 a b c := by unfold area2; ring
  unfold inside_areas
  rw [e1, e2, e3, e0, neg_ne_zero]
  tauto

/-- Exchanging the last two vertices does not change the acceptance condition. -/
lemma inside_areas_swap12 (p a b c : point_2d K) :
    inside_areas p a b c ↔ inside_areas p a c b := by
  have e0 : area2 a c b = - area2 a b c := by unfold area2; ring
  have e1 : area2 p c b * area2 a c b = area2 p b c * area2 a b c := by unfold area2; ring
  have e2 : area2 a p b * area2 a c b = area2 a b p * area2 a b c := by unfold area2; ring
  have e3 : area2 a c p * area2 a c b = area2 a p c * area2 a b c := by unfold area2; ring
  unfold inside_areas
  rw [e1, e2, e3, e0, neg_ne_zero]
  tauto

/-- The acceptance condition is the same for every ordering of three distinct indices. -/
lemma inside_areas_perm (p : point_2d K) (f : Fin 3 → point_2d K) (i j k : Fin 3)
    (hij : i ≠ j) (hjk : j ≠ k) (hik : i ≠ k) :
    inside_areas p (f i) (f j) (f k) ↔ inside_areas p (f 0) (f 1) (f 2) := by
  fin_cases i <;> fin_cases j <;> fin_cases k <;> simp at hij hjk hik ⊢
  · exact (inside_areas_swap12 _ _ _ _).symm
  · exact (inside_areas_swap01 _ _ _ _).symm
  · rw [inside_areas_swap12, inside_areas_swap01]
  · rw [inside_areas_swap01, inside_areas_swap12]
  · rw [inside_areas_swap01, inside_areas_swap12, inside_areas_swap01]

end TriangleLemmas

section TriangleTheorems

variable {K : Type} [LinearOrderedField K]

/-- C1: on a triangle whose vertices are not collinear, `point_in_triangle` returns true
exactly when the query point is strictly interior (a combination of the vertices with
strictly positive weights of sum one), and equivalently exactly when the computed
coordinates satisfy `u > 0`, `v > 0` and `u + v < 1`. -/
theorem point_in_triangle_iff_strictly_interior (pt : point_2d K) (tri : triangle K)
    (h : ¬ collinear (tri.points 0) (tri.points 1) (tri.points 2)) :
    (point_in_triangle pt tri = true ↔
        strictly_interior pt (tri.points 0) (tri.points 1) (tri.points 2)) ∧
      (point_in_triangle pt tri = true ↔
        bary_u pt tri > 0 ∧ bary_v pt tri > 0 ∧ bary_u pt tri + bary_v pt tri < 1) := by
  have hD : area2 (tri.points 0) (tri.points 1) (tri.points 2) ≠ 0 := h
  refine ⟨?_, ?_⟩
  · rw [point_in_triangle_iff_area, strictly_interior_iff_area _ _ _ _ hD]
    exact ⟨fun hh => hh.2, fun hh => ⟨hD, hh⟩⟩
  · rw [point_in_triangle_iff_area, bary_u_eq pt tri hD, bary_v_eq pt tri hD]
    have e : area2 (tri.points 0) (tri.points 1) pt
          / area2 (tri.points 0) (tri.points 1) (tri.points 2)
        + area2 (tri.points 0) pt (tri.points 2)
          / area2 (tri.points 0) (tri.points 1) (tri.points 2) < 1 ↔
        0 < area2 pt (tri.points 1) (tri.points 2)
          / area2 (tri.points 0) (tri.points 1) (tri.points 2) := by
      have hs := area2_sum pt (tri.points 0) (tri.points 1) (tri.points 2)
      have e2 : area2 pt (tri.points 1) (tri.points 2)
            / area2 (tri.points 0) (tri.points 1) (tri.points 2)
          = 1 - (area2 (tri.points 0) (tri.points 1) pt
              / area2 (tri.points 0) (tri.points 1) (tri.points 2)
            + area2 (tri.points 0) pt (tri.points 2)
              / area2 (tri.points 0) (tri.points 1) (tri.points 2)) := by
        field_simp
        linarith
      rw [e2, sub_pos]
    rw [e, gt_iff_lt, gt_iff_lt, div_pos_iff_mul_pos hD, div_pos_iff_mul_pos hD,
      div_pos_iff_mul_pos hD]
    tauto

/-- Witness for C1: in the triangle `(0,0) (4,0) (0,4)` the point `(1,1)` is accepted,
hence strictly interior. -/
theorem point_in_triangle_iff_strictly_interior_witness :
    ¬ collinear (⟨0, 0⟩ : point_2d ℚ) ⟨4, 0⟩ ⟨0, 4⟩ ∧
      strictly_interior (⟨1, 1⟩ : point_2d ℚ) ⟨0, 0⟩ ⟨4, 0⟩ ⟨0, 4⟩ :=
  ⟨by norm_num [collinear, area2],
    (point_in_triangle_iff_strictly_interior (⟨1, 1⟩ : point_2d ℚ) ⟨![⟨0, 0⟩, ⟨4, 0⟩, ⟨0, 4⟩]⟩
      (by norm_num [collinear, area2])).1.mp
      (by norm_num [point_in_triangle, vector_to_point, vector_subtract, dot_product])⟩

/-- C2: on a degenerate triangle (collinear vertices, two or three of which may be equal)
the denominator `dot00 * dot11 - dot01 * dot01` is zero and `point_in_triangle` returns
false for every query point. -/
theorem point_in_triangle_degenerate (pt : point_2d K) (tri : triangle K)
    (h : collinear (tri.points 0) (tri.points 1) (tri.points 2)) :
    dot_product (vector_subtract (vector_to_point (tri.points 2)) (vector_to_point (tri.points 0)))
        (vector_subtract (vector_to_point (tri.points 2)) (vector_to_point (tri.points 0)))
      * dot_product (vector_subtract (vector_to_point (tri.points 1)) (vector_to_point (tri.points 0)))
        (vector_subtract (vector_to_point (tri.points 1)) (vector_to_point (tri.points 0)))
      - dot_product (vector_subtract (vector_to_point (tri.points 2)) (vector_to_point (tri.points 0)))
        (vector_subtract (vector_to_point (tri.points 1)) (vector_to_point (tri.points 0)))
      * dot_product (vector_subtract (vector_to_point (tri.points 2)) (vector_to_point (tri.points 0)))
        (vector_subtract (vector_to_point (tri.points 1)) (vector_to_point (tri.points 0))) = 0
      ∧ point_in_triangle pt tri = false := by
  have hD : area2 (tri.points 0) (tri.points 1) (tri.points 2) = 0 := h
  refine ⟨by rw [bary_denom_eq, hD, mul_zero], ?_⟩
  rw [Bool.eq_false_iff]
  intro hin
  exact ((point_in_triangle_iff_area pt tri).mp hin).1 hD

/-- Witness for C2: the collinear triple `(0,0) (1,1) (4,4)` rejects the point `(2,2)`
lying between its vertices. -/
theorem point_in_triangle_degenerate_witness :
    collinear (⟨0, 0⟩ : point_2d ℚ) ⟨1, 1⟩ ⟨4, 4⟩ ∧
      point_in_triangle (⟨2, 2⟩ : point_2d ℚ) ⟨![⟨0, 0⟩, ⟨1, 1⟩, ⟨4, 4⟩]⟩ = false :=
  ⟨by norm_num [collinear, area2],
    (point_in_triangle_degenerate (⟨2, 2⟩ : point_2d ℚ) ⟨![⟨0, 0⟩, ⟨1, 1⟩, ⟨4, 4⟩]⟩
      (by norm_num [collinear, area2])).2⟩

/-- C4 fails as stated: in `float` arithmetic the centroid `(-16,-41)` of the non-collinear
triangle `(-102,-6) (75,-78) (-21,-39)` is rejected (the denominator `81` is computed as
`64`, which gives `u = v = 1/2` and `u + v = 1`). -/
theorem point_in_triangle_centroid_fails_in_float :
    ¬ collinear (⟨-102, -6⟩ : point_2d ℚ) ⟨75, -78⟩ ⟨-21, -39⟩ ∧
      ((-102 + 75 + -21) / 3 : ℚ) = -16 ∧ ((-6 + -78 + -39) / 3 : ℚ) = -41 ∧
      point_in_triangle_f32 ⟨-16, -41⟩ ⟨![⟨-102, -6⟩, ⟨75, -78⟩, ⟨-21, -39⟩]⟩ = false :=
  ⟨by norm_num [collinear, area2], by norm_num, by norm_num, by decide!⟩

/-- C4, amended: in exact arithmetic, on a triangle whose vertices are not collinear the
centroid is accepted, and the coordinates computed for it are `u = v = 1/3`. -/
theorem point_in_triangle_centroid (tri : triangle K)
    (h : ¬ collinear (tri.points 0) (tri.points 1) (tri.points 2)) :
    point_in_triangle
        (⟨((tri.points 0).x + (tri.points 1).x + (tri.points 2).x) / 3,
          ((tri.points 0).y + (tri.points 1).y + (tri.points 2).y) / 3⟩ : point_2d K) tri = true
      ∧ bary_u (⟨((tri.points 0).x + (tri.points 1).x + (tri.points 2).x) / 3,
          ((tri.points 0).y + (tri.points 1).y + (tri.points 2).y) / 3⟩ : point_2d K) tri = 1 / 3
      ∧ bary_v (⟨((tri.points 0).x + (tri.points 1).x + (tri.points 2).x) / 3,
          ((tri.points 0).y + (tri.points 1).y + (tri.points 2).y) / 3⟩ : point_2d K) tri
          = 1 / 3 := by
  have hD : area2 (tri.points 0) (tri.points 1) (tri.points 2) ≠ 0 := h
  have h2 : 0 < area2 (tri.points 0) (tri.points 1) (tri.points 2)
      * area2 (tri.points 0) (tri.points 1) (tri.points 2) := mul_self_pos.mpr hD
  have e1 : ∀ a b c : point_2d K,
      area2 ⟨(a.x + b.x + c.x) / 3, (a.y + b.y + c.y) / 3⟩ b c = area2 a b c / 3 := by
    intro a b c; unfold area2; ring
  have e2 : ∀ a b c : point_2d K,
      area2 a ⟨(a.x + b.x + c.x) / 3, (a.y + b.y + c.y) / 3⟩ c = area2 a b c / 3 := by
    intro a b c; unfold area2; ring
  have e3 : ∀ a b c : point_2d K,
      area2 a b ⟨(a.x + b.x + c.x) / 3, (a.y + b.y + c.y) / 3⟩ = area2 a b c / 3 := by
    intro a b c; unfold area2; ring
  refine ⟨?_, ?_, ?_⟩
  · rw [point_in_triangle_iff_area, e1, e2, e3]
    have h3 : 0 < area2 (tri.points 0) (tri.points 1) (tri.points 2) / 3
        * area2 (tri.points 0) (tri.points 1) (tri.points 2) := by
      rw [div_mul_eq_mul_div]; exact div_pos h2 (by norm_num)
    exact ⟨hD, h3, h3, h3⟩
  · rw [bary_u_eq _ tri hD, e3]; field_simp; ring
  · rw [bary_v_eq _ tri hD, e2]; field_simp; ring

/-- Witness for C4: the centroid `(1, 1)` of the triangle `(0,0) (3,0) (0,3)`. -/
theorem point_in_triangle_centroid_witness :
    ¬ collinear (⟨0, 0⟩ : point_2d ℚ) ⟨3, 0⟩ ⟨0, 3⟩ ∧
      point_in_triangle (⟨1, 1⟩ : point_2d ℚ) ⟨![⟨0, 0⟩, ⟨3, 0⟩, ⟨0, 3⟩]⟩ = true := by
  have h := point_in_triangle_centroid (⟨![⟨0, 0⟩, ⟨3, 0⟩, ⟨0, 3⟩]⟩ : triangle ℚ)
    (by norm_num [collinear, area2])
  refine ⟨by norm_num [collinear, area2], ?_⟩
  have h1 := h.1
  norm_num at h1
  exact h1

/-- C5: `point_in_triangle` does not depend on the order of the vertices: the result is
the same for the reversed triangle `(c, b, a)` and for every permutation of the vertices. -/
theorem point_in_triangle_perm (pt : point_2d K) (tri : triangle K) :
    point_in_triangle pt ⟨![tri.points 2, tri.points 1, tri.points 0]⟩
        = point_in_triangle pt tri ∧
      ∀ σ : Equiv.Perm (Fin 3),
        point_in_triangle pt ⟨fun i => tri.points (σ i)⟩ = point_in_triangle pt tri := by
  have key : ∀ i j k : Fin 3, i ≠ j → j ≠ k → i ≠ k →
      point_in_triangle pt ⟨![tri.points i, tri.points j, tri.points k]⟩
        = point_in_triangle pt tri := by
    intro i j k hij hjk hik
    rw [Bool.eq_iff_iff, point_in_triangle_iff_area, point_in_triangle_iff_area]
    exact inside_areas_perm pt tri.points i j k hij hjk hik
  refine ⟨key 2 1 0 (by decide) (by decide) (by decide), fun σ => ?_⟩
  have e : (fun i => tri.points (σ i)) = ![tri.points (σ 0), tri.points (σ 1), tri.points (σ 2)] := by
    funext i; fin_cases i <;> rfl
  rw [e]
  exact key _ _ _ (σ.injective.ne (by decide)) (σ.injective.ne (by decide))
    (σ.injective.ne (by decide))

end TriangleTheorems

section LineLemmas

variable {K : Type} [LinearOrderedField K]

/-- The macro `MIN` computes the minimum. -/
lemma MIN_eq_min (a b : K) : MIN a b = min a b := by
  unfold MIN
  split_ifs with h
  · exact (min_eq_left h.le).symm
  · exact (min_eq_right (not_lt.mp h)).symm

/-- The macro `MAX` computes the maximum. -/
lemma MAX_eq_max (a b : K) : MAX a b = max a b := by
  unfold MAX
  split_ifs with h
  · exact (max_eq_left (le_of_lt h)).symm
  · exact (max_eq_right (not_lt.mp h)).symm

/-- The four early-exit comparisons of `point_in_rectangle` accept exactly the points
within the four bounds, bounds included. -/
lemma point_in_rectangle_iff (pt : point_2d K) (rect : rectangle K) :
    point_in_rectangle pt rect = true ↔
      rectangle_left rect ≤ pt.x ∧ pt.x ≤ rectangle_right rect ∧
        rectangle_top rect ≤ pt.y ∧ pt.y ≤ rectangle_bottom rect := by
  unfold point_in_rectangle
  split_ifs with h1 h2 h3 h4
  · simp only [Bool.false_eq_true, false_iff]; intro h; exact absurd h.1 (not_le.mpr h1)
  · simp only [Bool.false_eq_true, false_iff]; intro h; exact absurd h.2.1 (not_le.mpr h2)
  · simp only [Bool.false_eq_true, false_iff]; intro h; exact absurd h.2.2.1 (not_le.mpr h3)
  · simp only [Bool.false_eq_true, false_iff]; intro h; exact absurd h.2.2.2 (not_le.mpr h4)
  · simp only [true_iff]
    exact ⟨not_lt.mp h1, not_lt.mp h2, not_lt.mp h3, not_lt.mp h4⟩

/-- Containment in `rectangle_around l` is containment in the bounding box of `l`. -/
lemma point_in_rectangle_around_iff (pt : point_2d K) (l : line K) :
    point_in_rectangle pt (rectangle_around l) = true ↔ in_bounding_box pt l := by
  rw [point_in_rectangle_iff]
  simp only [rectangle_left, rectangle_right, rectangle_top, rectangle_bottom, rectangle_around,
    MIN_eq_min, MAX_eq_max, in_bounding_box]

end LineLemmas

section LineTheorems

variable {K : Type} [LinearOrderedField K] [FloorRing K]

/-- C6 fails as stated: on the short segment `(0,0)-(0.5,0)` it is not the case that the
query `(0,0)` gives true and the query `(0.4,0)` gives false. -/
theorem point_on_line_short_scenario_fails :
    ¬ (point_on_line (⟨0, 0⟩ : point_2d ℚ) ⟨⟨0, 0⟩, ⟨1 / 2, 0⟩⟩ = true ∧
        point_on_line (⟨2 / 5, 0⟩ : point_2d ℚ) ⟨⟨0, 0⟩, ⟨1 / 2, 0⟩⟩ = false) := by
  norm_num [point_on_line, line_length_squared, same_point, static_cast_int]

/-- C6, amended: the segment `(0,0)-(0.5,0)` has squared length `0.25 < 1` and
`point_on_line` returns true for the query `(0,0)` and also for the query `(0.4,0)`,
whose coordinates truncate to `(0,0)`, those of the start point. -/
theorem point_on_line_short_scenario :
    line_length_squared (⟨⟨0, 0⟩, ⟨1 / 2, 0⟩⟩ : line ℚ) = 1 / 4 ∧
      point_on_line (⟨0, 0⟩ : point_2d ℚ) ⟨⟨0, 0⟩, ⟨1 / 2, 0⟩⟩ = true ∧
      point_on_line (⟨2 / 5, 0⟩ : point_2d ℚ) ⟨⟨0, 0⟩, ⟨1 / 2, 0⟩⟩ = true ∧
      static_cast_int (2 / 5 : ℚ) = 0 := by
  norm_num [point_on_line, line_length_squared, same_point, static_cast_int]

/-- C9: on a vertical segment of squared length at least 1, `point_on_line` is true
exactly when `pt.x` is within `0.9` of the segment's `x` and `pt.y` is in the segment's
range of `y`. -/
theorem point_on_line_vertical (pt : point_2d K) (l : line K)
    (hlen : 1 ≤ line_length_squared l) (hv : l.end_point.x = l.start_point.x) :
    point_on_line pt l = true ↔
      l.start_point.x - 9 / 10 ≤ pt.x ∧ pt.x ≤ l.start_point.x + 9 / 10 ∧
        min l.start_point.y l.end_point.y ≤ pt.y ∧
        pt.y ≤ max l.start_point.y l.end_point.y := by
  simp only [point_on_line, not_lt.mpr hlen, if_false, hv, if_true, simple_comparison_x_same,
    Bool.and_eq_true, decide_eq_true_eq, SMALL, MIN_eq_min, MAX_eq_max, ge_iff_le, and_assoc]

/-- Witness for C9: on the segment `(3,0)-(3,10)` the query `(3.8, 5)` gives true and the
query `(4.0, 5)` gives false. -/
theorem point_on_line_vertical_witness :
    point_on_line (⟨19 / 5, 5⟩ : point_2d ℚ) ⟨⟨3, 0⟩, ⟨3, 10⟩⟩ = true ∧
      point_on_line (⟨4, 5⟩ : point_2d ℚ) ⟨⟨3, 0⟩, ⟨3, 10⟩⟩ = false :=
  ⟨(point_on_line_vertical (⟨19 / 5, 5⟩ : point_2d ℚ) ⟨⟨3, 0⟩, ⟨3, 10⟩⟩
      (by norm_num [line_length_squared]) rfl).mpr (by norm_num),
    Bool.eq_false_iff.mpr (fun hin =>
      absurd ((point_on_line_vertical (⟨4, 5⟩ : point_2d ℚ) ⟨⟨3, 0⟩, ⟨3, 10⟩⟩
        (by norm_num [line_length_squared]) rfl).mp hin).2.1 (by norm_num))⟩

/-- C10: on a horizontal, non-vertical segment of squared length at least 1,
`point_on_line` is true exactly when `pt.y` is within `0.9` of the segment's `y` and
`pt.x` is in the segment's range of `x`. -/
theorem point_on_line_horizontal (pt : point_2d K) (l : line K)
    (hlen : 1 ≤ line_length_squared l) (hh : l.end_point.y = l.start_point.y)
    (hnv : l.end_point.x ≠ l.start_point.x) :
    point_on_line pt l = true ↔
      l.start_point.y - 9 / 10 ≤ pt.y ∧ pt.y ≤ l.start_point.y + 9 / 10 ∧
        min l.start_point.x l.end_point.x ≤ pt.x ∧
        pt.x ≤ max l.start_point.x l.end_point.x := by
  simp only [point_on_line, not_lt.mpr hlen, if_false, hnv, hh, if_true,
    simple_comparison_y_same, Bool.and_eq_true, decide_eq_true_eq, SMALL, MIN_eq_min,
    MAX_eq_max, ge_iff_le, and_assoc]

/-- Witness for C10: on the segment `(0,0)-(10,0)` the query `(5, 0.5)` gives true and the
query `(5, 1.0)` gives false. -/
theorem point_on_line_horizontal_witness :
    point_on_line (⟨5, 1 / 2⟩ : point_2d ℚ) ⟨⟨0, 0⟩, ⟨10, 0⟩⟩ = true ∧
      point_on_line (⟨5, 1⟩ : point_2d ℚ) ⟨⟨0, 0⟩, ⟨10, 0⟩⟩ = false :=
  ⟨(point_on_line_horizontal (⟨5, 1 / 2⟩ : point_2d ℚ) ⟨⟨0, 0⟩, ⟨10, 0⟩⟩
      (by norm_num [line_length_squared]) rfl (by norm_num)).mpr (by norm_num),
    Bool.eq_false_iff.mpr (fun hin =>
      absurd ((point_on_line_horizontal (⟨5, 1⟩ : point_2d ℚ) ⟨⟨0, 0⟩, ⟨10, 0⟩⟩
        (by norm_num [line_length_squared]) rfl (by norm_num)).mp hin).2.1 (by norm_num))⟩

end LineTheorems

section DistanceLemmas

variable {K : Type} [LinearOrderedField K] [ExactSqrt K]

/-- The distance is not negative. -/
lemma point_point_distance_nonneg (p1 p2 : point_2d K) : 0 ≤ point_point_distance p1 p2 := by
  unfold point_point_distance vector_magnitude vector_point_to_point
  exact ExactSqrt.sqrt_nonneg _ (add_nonneg (mul_self_nonneg _) (mul_self_nonneg _))

/-- The square of the distance is the sum of the squared coordinate differences. -/
lemma point_point_distance_mul_self (p1 p2 : point_2d K) :
    point_point_distance p1 p2 * point_point_distance p1 p2
      = (p2.x - p1.x) * (p2.x - p1.x) + (p2.y - p1.y) * (p2.y - p1.y) := by
  unfold point_point_distance vector_magnitude vector_point_to_point
  exact ExactSqrt.sqrt_mul_self _ (add_nonneg (mul_self_nonneg _) (mul_self_nonneg _))

/-- Comparing the distance with a non-negative bound is comparing the squares. -/
lemma point_point_distance_le_iff (p1 p2 : point_2d K) (b : K) (hb : 0 ≤ b) :
    point_point_distance p1 p2 ≤ b ↔
      (p2.x - p1.x) * (p2.x - p1.x) + (p2.y - p1.y) * (p2.y - p1.y) ≤ b * b := by
  rw [mul_self_le_mul_self_iff (point_point_distance_nonneg p1 p2) hb,
    point_point_distance_mul_self]

/-- The idealised square root is inhabited by the real square root: the distance from
`(0,0)` to `(3,4)` over the reals is `5`. -/
lemma point_point_distance_real_example :
    point_point_distance (⟨0, 0⟩ : point_2d ℝ) ⟨3, 4⟩ = 5 := by
  have e : ((3 : ℝ) - 0) * (3 - 0) + (4 - 0) * (4 - 0) = 5 ^ 2 := by norm_num
  show Real.sqrt (((3 : ℝ) - 0) * (3 - 0) + (4 - 0) * (4 - 0)) = 5
  rw [e]
  exact Real.sqrt_sq (by norm_num)

end DistanceLemmas

section DistanceTheorems

variable {K : Type} [LinearOrderedField K] [ExactSqrt K]

/-- C12: `point_in_circle` is true exactly when the Euclidean distance from the centre to
the point is at most `|r|`, equivalently when
`(pt.x - ctr.x)^2 + (pt.y - ctr.y)^2 ≤ r^2`; so the radii `r` and `-r` give the same
result and a point at distance exactly `|r|` is contained. -/
theorem point_in_circle_iff (pt ctr : point_2d K) (r : K) :
    (point_in_circle pt ⟨ctr, r⟩ = true ↔ point_point_distance ctr pt ≤ |r|) ∧
      (0 ≤ point_point_distance ctr pt ∧
        point_point_distance ctr pt ^ 2 = (pt.x - ctr.x) ^ 2 + (pt.y - ctr.y) ^ 2) ∧
      (point_in_circle pt ⟨ctr, r⟩ = true ↔
        (pt.x - ctr.x) ^ 2 + (pt.y - ctr.y) ^ 2 ≤ r ^ 2) ∧
      point_in_circle pt ⟨ctr, r⟩ = point_in_circle pt ⟨ctr, -r⟩ ∧
      (point_point_distance ctr pt = |r| → point_in_circle pt ⟨ctr, r⟩ = true) := by
  have e1 : ∀ s : K, point_in_circle pt ⟨ctr, s⟩ = true ↔ point_point_distance ctr pt ≤ |s| := by
    intro s
    simp only [point_in_circle, decide_eq_true_eq]
  have e2 : ∀ s : K, point_in_circle pt ⟨ctr, s⟩ = true ↔
      (pt.x - ctr.x) ^ 2 + (pt.y - ctr.y) ^ 2 ≤ s ^ 2 := by
    intro s
    rw [e1, point_point_distance_le_iff _ _ _ (abs_nonneg s), abs_mul_abs_self, sq, sq, sq]
  refine ⟨e1 r, ⟨point_point_distance_nonneg ctr pt, ?_⟩, e2 r, ?_, fun h => (e1 r).mpr h.le⟩
  · rw [sq, sq, sq, point_point_distance_mul_self]
  · rw [Bool.eq_iff_iff, e2, e2, neg_sq]

/-- C14: `point_point_distance` satisfies the triangle inequality. -/
theorem point_point_distance_triangle (p1 p2 p3 : point_2d K) :
    point_point_distance p1 p3 ≤ point_point_distance p1 p2 + point_point_distance p2 p3 := by
  have h12 := point_point_distance_nonneg p1 p2
  have h23 := point_point_distance_nonneg p2 p3
  have s12 := point_point_distance_mul_self p1 p2
  have s23 := point_point_distance_mul_self p2 p3
  rw [point_point_distance_le_iff _ _ _ (add_nonneg h12 h23)]
  -- Cauchy-Schwarz on the two displacement vectors
  have hcs : ((p2.x - p1.x) * (p3.x - p2.x) + (p2.y - p1.y) * (p3.y - p2.y))
      ≤ point_point_distance p1 p2 * point_point_distance p2 p3 := by
    apply le_of_abs_le
    apply abs_le_of_sq_le_sq _ (mul_nonneg h12 h23)
    have e : (point_point_distance p1 p2 * point_point_distance p2 p3) ^ 2
        = ((p2.x - p1.x) * (p2.x - p1.x) + (p2.y - p1.y) * (p2.y - p1.y))
          * ((p3.x - p2.x) * (p3.x - p2.x) + (p3.y - p2.y) * (p3.y - p2.y)) := by
      rw [← s12, ← s23]; ring
    rw [e]
    nlinarith [sq_nonneg ((p2.x - p1.x) * (p3.y - p2.y) - (p2.y - p1.y) * (p3.x - p2.x))]
  nlinarith [hcs, s12, s23]

/-- C15: `point_point_distance` is symmetric. -/
theorem point_point_distance_symm (p1 p2 : point_2d K) :
    point_point_distance p1 p2 = point_point_distance p2 p1 := by
  have e : (p2.x - p1.x) * (p2.x - p1.x) + (p2.y - p1.y) * (p2.y - p1.y)
      = (p1.x - p2.x) * (p1.x - p2.x) + (p1.y - p2.y) * (p1.y - p2.y) := by ring
  simp only [point_point_distance, vector_magnitude, vector_point_to_point, e]

end DistanceTheorems

section MiscLemmas

variable {K : Type} [LinearOrderedField K] [FloorRing K]

/-- The conversion to `int` is truncation toward zero as the specification words it. -/
lemma static_cast_int_eq_trunc (x : K) : static_cast_int x = trunc_toward_zero x := by
  unfold static_cast_int trunc_toward_zero
  split_ifs with h
  · rw [abs_of_nonneg h]
  · rw [abs_of_neg (not_le.mp h), Int.floor_neg, neg_neg]

/-- Truncation toward zero keeps the sign and discards less than one unit of magnitude. -/
lemma trunc_toward_zero_spec (x : K) :
    |((trunc_toward_zero x : Int) : K)| ≤ |x| ∧ |x| < |((trunc_toward_zero x : Int) : K)| + 1 ∧
      0 ≤ ((trunc_toward_zero x : Int) : K) * x := by
  have hfl : 0 ≤ ⌊|x|⌋ := Int.floor_nonneg.mpr (abs_nonneg x)
  have hflK : (0 : K) ≤ ((⌊|x|⌋ : Int) : K) := by exact_mod_cast hfl
  have h1 : ((⌊|x|⌋ : Int) : K) ≤ |x| := Int.floor_le _
  have h2 : |x| < ((⌊|x|⌋ : Int) : K) + 1 := Int.lt_floor_add_one _
  unfold trunc_toward_zero
  split_ifs with h
  · rw [abs_of_nonneg hflK]
    exact ⟨h1, h2, mul_nonneg hflK h⟩
  · have hx : x ≤ 0 := (not_le.mp h).le
    rw [Int.cast_neg, abs_neg, abs_of_nonneg hflK]
    exact ⟨h1, h2, by rw [neg_mul]; exact neg_nonneg.mpr (mul_nonpos_of_nonneg_of_nonpos hflK hx)⟩

/-- A coordinate in the range of `int` is converted without fault. -/
lemma static_cast_int_checked_of_range (x : K) (h : in_int_range x) :
    static_cast_int_checked x = some (static_cast_int x) := by
  unfold in_int_range at h
  rw [← static_cast_int_eq_trunc] at h
  simp only [static_cast_int_checked, h, and_self, if_true]

/-- The rounding onto `float` and `double` gives the known values of `1.1f`, of `0.1f`, of
the `double` `0.9`, of an odd integer above `2 ^ 24` and of a tie in the subnormal range. -/
lemma fl32_fl64_examples :
    fl32 (11 / 10) = 9227469 / 8388608 ∧ fl32 (1 / 10) = 13421773 / 134217728 ∧
      fl64 (9 / 10) = 8106479329266893 / 9007199254740992 ∧
      fl32 16777217 = 16777216 ∧ fl32 16777219 = 16777220 ∧ fl32 (1 / 2) = 1 / 2 ∧
      fl32 (3 / 2 ^ 150) = 1 / 2 ^ 148 := by
  decide!

end MiscLemmas

section MiscTheorems

variable {K : Type} [LinearOrderedField K]

/-- C11: `point_in_rectangle` is true exactly when `left ≤ pt.x ≤ right` and
`top ≤ pt.y ≤ bottom`; in particular a point within the bounds that sits on one of the
four edges is contained. -/
theorem point_in_rectangle_inclusive (pt : point_2d K) (rect : rectangle K) :
    (point_in_rectangle pt rect = true ↔
        rectangle_left rect ≤ pt.x ∧ pt.x ≤ rectangle_right rect ∧
          rectangle_top rect ≤ pt.y ∧ pt.y ≤ rectangle_bottom rect) ∧
      ((pt.x = rectangle_left rect ∨ pt.x = rectangle_right rect ∨
          pt.y = rectangle_top rect ∨ pt.y = rectangle_bottom rect) →
        rectangle_left rect ≤ pt.x → pt.x ≤ rectangle_right rect →
        rectangle_top rect ≤ pt.y → pt.y ≤ rectangle_bottom rect →
        point_in_rectangle pt rect = true) :=
  ⟨point_in_rectangle_iff pt rect,
    fun _ h1 h2 h3 h4 => (point_in_rectangle_iff pt rect).mpr ⟨h1, h2, h3, h4⟩⟩

/-- C13: for points whose coordinates are in the range of `int`, the conversions of
`same_point` are defined and `same_point` is true exactly when the coordinates truncated
toward zero are equal. -/
theorem same_point_iff_trunc [FloorRing K] (p1 p2 : point_2d K)
    (h1x : in_int_range p1.x) (h1y : in_int_range p1.y)
    (h2x : in_int_range p2.x) (h2y : in_int_range p2.y) :
    same_point_checked p1 p2 = some (same_point p1 p2) ∧
      (same_point p1 p2 = true ↔
        trunc_toward_zero p1.x = trunc_toward_zero p2.x ∧
          trunc_toward_zero p1.y = trunc_toward_zero p2.y) := by
  refine ⟨?_, ?_⟩
  · simp only [same_point_checked, static_cast_int_checked_of_range _ h1x,
      static_cast_int_checked_of_range _ h1y, static_cast_int_checked_of_range _ h2x,
      static_cast_int_checked_of_range _ h2y, Option.some_bind, same_point]
    by_cases hx : static_cast_int p1.x = static_cast_int p2.x
    · simp [hx]
    · simp [hx]
  · simp only [same_point, Bool.and_eq_true, decide_eq_true_eq, static_cast_int_eq_trunc]

/-- Witness for C13: `same_point((1.9,1.9),(1.0,1.0))` is true and
`same_point((2.0,1.9),(1.9,1.9))` is false; truncation is neither rounding (`1.9` gives `1`)
nor floor (`-1.5` gives `-1`). -/
theorem same_point_iff_trunc_witness :
    same_point (⟨19 / 10, 19 / 10⟩ : point_2d ℚ) ⟨1, 1⟩ = true ∧
      same_point (⟨2, 19 / 10⟩ : point_2d ℚ) ⟨19 / 10, 19 / 10⟩ = false ∧
      trunc_toward_zero (19 / 10 : ℚ) = 1 ∧ trunc_toward_zero (-3 / 2 : ℚ) = -1 := by
  have t1 : trunc_toward_zero (1 : ℚ) = 1 := by norm_num [trunc_toward_zero]
  have t2 : trunc_toward_zero (2 : ℚ) = 2 := by norm_num [trunc_toward_zero]
  have t19 : trunc_toward_zero (19 / 10 : ℚ) = 1 := by
    unfold trunc_toward_zero
    rw [if_pos (by norm_num), abs_of_nonneg (by norm_num), Int.floor_eq_iff]
    norm_num
  have t32 : trunc_toward_zero (-3 / 2 : ℚ) = -1 := by
    unfold trunc_toward_zero
    rw [if_neg (by norm_num), abs_of_neg (by norm_num), neg_inj, Int.floor_eq_iff]
    norm_num
  have r1 : in_int_range (1 : ℚ) := by
    unfold in_int_range; rw [t1]; norm_num [INT_MIN, INT_MAX]
  have r2 : in_int_range (2 : ℚ) := by
    unfold in_int_range; rw [t2]; norm_num [INT_MIN, INT_MAX]
  have r19 : in_int_range (19 / 10 : ℚ) := by
    unfold in_int_range; rw [t19]; norm_num [INT_MIN, INT_MAX]
  refine ⟨(same_point_iff_trunc (⟨19 / 10, 19 / 10⟩ : point_2d ℚ) ⟨1, 1⟩ r19 r19 r1 r1).2.mpr
      ⟨by rw [t19, t1], by rw [t19, t1]⟩, ?_, t19, t32⟩
  rw [Bool.eq_false_iff]
  intro hin
  have h := ((same_point_iff_trunc (⟨2, 19 / 10⟩ : point_2d ℚ) ⟨19 / 10, 19 / 10⟩
    r2 r19 r19 r19).2.mp hin).1
  rw [t2, t19] at h
  exact absurd h (by decide)

/-- C16 does not hold of the code: `random_window_point` never reads its argument. With a
current window of `800 x 600`, the window `100 x 50` passed as argument and the draws
`1/2, 1/2`, it returns `(400, 300)`, outside the window passed, where the window passed
would give `(50, 25)`. -/
theorem random_window_point_ignores_window :
    (random_window_point (⟨⟨800, 600⟩⟩ : display ℚ) ⟨100, 50⟩ (1 / 2) (1 / 2)).x = 400 ∧
      (random_window_point (⟨⟨800, 600⟩⟩ : display ℚ) ⟨100, 50⟩ (1 / 2) (1 / 2)).y = 300 ∧
      (1 / 2 : ℚ) * window_width (⟨100, 50⟩ : window ℚ) = 50 ∧
      (1 / 2 : ℚ) * window_height (⟨100, 50⟩ : window ℚ) = 25 ∧
      ¬ (random_window_point (⟨⟨800, 600⟩⟩ : display ℚ) ⟨100, 50⟩ (1 / 2) (1 / 2)).x
          < window_width (⟨100, 50⟩ : window ℚ) := by
  norm_num [random_window_point, screen_width, screen_height, current_window, window_width,
    window_height]

/-- C17: no division by zero is reachable: with division made partial,
`point_in_triangle` and `point_on_line` still return a boolean for every input, the one
the functions compute. -/
theorem no_division_by_zero [FloorRing K] (pt : point_2d K) (tri : triangle K) (l : line K) :
    point_in_triangle_checked pt tri = some (point_in_triangle pt tri) ∧
      point_on_line_checked pt l = some (point_on_line pt l) := by
  refine ⟨?_, ?_⟩
  · unfold point_in_triangle_checked point_in_triangle
    simp only
    split_ifs with h
    · rfl
    · simp only [checked_div, h, if_false, Option.some_bind]
  · unfold point_on_line_checked point_on_line
    simp only
    split_ifs with h1 h2 h3
    · rfl
    · rfl
    · rfl
    · have hx : l.end_point.x - l.start_point.x ≠ 0 := sub_ne_zero.mpr h2
      have hy : l.end_point.y - l.start_point.y ≠ 0 := sub_ne_zero.mpr h3
      have hm : (l.end_point.y - l.start_point.y) / (l.end_point.x - l.start_point.x) ≠ 0 :=
        div_ne_zero hy hx
      simp only [checked_div, hx, hm, if_false, Option.some_bind]

end MiscTheorems

section SegmentLemmas

variable {K : Type} [LinearOrderedField K]

/-- The squared length does not depend on the direction of the segment. -/
lemma line_length_squared_swap (a b : point_2d K) :
    line_length_squared (⟨b, a⟩ : line K) = line_length_squared ⟨a, b⟩ := by
  unfold line_length_squared; ring

/-- A point `a + t * (b - a)` with `0 ≤ t ≤ 1` lies between `a` and `b`. -/
lemma convex_between (a b t : K) (h0 : 0 ≤ t) (h1 : t ≤ 1) :
    min a b ≤ a + t * (b - a) ∧ a + t * (b - a) ≤ max a b := by
  rcases le_total a b with h | h
  · rw [min_eq_left h, max_eq_right h]
    have hd : 0 ≤ b - a := sub_nonneg.mpr h
    have h2 : t * (b - a) ≤ 1 * (b - a) := mul_le_mul_of_nonneg_right h1 hd
    exact ⟨by linarith [mul_nonneg h0 hd], by linarith⟩
  · rw [min_eq_right h, max_eq_left h]
    have hd : 0 ≤ a - b := sub_nonneg.mpr h
    have h2 : t * (a - b) ≤ 1 * (a - b) := mul_le_mul_of_nonneg_right h1 hd
    have h3 : t * (b - a) = -(t * (a - b)) := by ring
    exact ⟨by linarith, by linarith [mul_nonneg h0 hd]⟩

/-- A value between two distinct numbers `a` and `b` is `a + t * (b - a)` for
`t = (y - a) / (b - a)`, which is between `0` and `1`. -/
lemma between_param (a b y : K) (hab : a ≠ b) (h1 : min a b ≤ y) (h2 : y ≤ max a b) :
    0 ≤ (y - a) / (b - a) ∧ (y - a) / (b - a) ≤ 1 ∧ y = a + (y - a) / (b - a) * (b - a) := by
  have hne : b - a ≠ 0 := sub_ne_zero.mpr (Ne.symm hab)
  refine ⟨?_, ?_, by rw [div_mul_cancel₀ _ hne]; ring⟩
  · rcases lt_or_gt_of_ne hab with h | h
    · rw [min_eq_left h.le] at h1
      exact div_nonneg (sub_nonneg.mpr h1) (sub_nonneg.mpr h.le)
    · rw [max_eq_left h.le] at h2
      exact div_nonneg_of_nonpos (sub_nonpos.mpr h2) (sub_nonpos.mpr h.le)
  · rcases lt_or_gt_of_ne hab with h | h
    · rw [max_eq_right h.le] at h2
      rw [div_le_one (sub_pos.mpr h)]
      linarith
    · rw [min_eq_right h.le] at h1
      rw [div_le_one_of_neg (sub_neg.mpr h)]
      linarith

/-- A deviation of at most `0.9` has a square of at most `0.81`. -/
lemma sq_le_of_within (a b : K) (h1 : b - 9 / 10 ≤ a) (h2 : a ≤ b + 9 / 10) :
    (a - b) ^ 2 ≤ 81 / 100 := by
  have h := sq_le_sq' (show -(9 / 10 : K) ≤ a - b by linarith) (show a - b ≤ 9 / 10 by linarith)
  calc (a - b) ^ 2 ≤ (9 / 10 : K) ^ 2 := h
    _ = 81 / 100 := by norm_num

/-- The line through a sloped segment passes through the point of parameter `t`. -/
lemma line_through_param (l : line K) (t : K) (hnv : l.end_point.x ≠ l.start_point.x) :
    line_slope l * (l.start_point.x + t * (l.end_point.x - l.start_point.x)) + line_intercept l
      = l.start_point.y + t * (l.end_point.y - l.start_point.y) := by
  have hx : l.end_point.x - l.start_point.x ≠ 0 := sub_ne_zero.mpr hnv
  unfold line_intercept line_slope
  field_simp
  ring

/-- The inverse reading of the line through a sloped segment at the point of parameter `t`. -/
lemma line_through_param_inv (l : line K) (t : K) (hnv : l.end_point.x ≠ l.start_point.x)
    (hnh : l.end_point.y ≠ l.start_point.y) :
    (l.start_point.y + t * (l.end_point.y - l.start_point.y) - line_intercept l) / line_slope l
      = l.start_point.x + t * (l.end_point.x - l.start_point.x) := by
  have hx : l.end_point.x - l.start_point.x ≠ 0 := sub_ne_zero.mpr hnv
  have hy : l.end_point.y - l.start_point.y ≠ 0 := sub_ne_zero.mpr hnh
  have hm : line_slope l ≠ 0 := div_ne_zero hy hx
  rw [div_eq_iff hm]
  unfold line_intercept line_slope
  field_simp
  ring

variable [FloorRing K]

/-- The branch of `point_on_line` for a segment of squared length less than 1. -/
lemma pol_short_eq (pt : point_2d K) (l : line K) (h : line_length_squared l < 1) :
    point_on_line pt l = (same_point pt l.start_point || same_point pt l.end_point) := by
  simp only [point_on_line, h, if_true]

/-- The branch of `point_on_line` for a vertical segment of squared length at least 1. -/
lemma pol_vertical_iff (pt : point_2d K) (l : line K) (hlen : ¬ line_length_squared l < 1)
    (hv : l.end_point.x = l.start_point.x) :
    point_on_line pt l = true ↔
      l.start_point.x - 9 / 10 ≤ pt.x ∧ pt.x ≤ l.start_point.x + 9 / 10 ∧
        min l.start_point.y l.end_point.y ≤ pt.y ∧
        pt.y ≤ max l.start_point.y l.end_point.y := by
  simp only [point_on_line, hlen, if_false, hv, if_true, simple_comparison_x_same,
    Bool.and_eq_true, decide_eq_true_eq, SMALL, MIN_eq_min, MAX_eq_max, ge_iff_le, and_assoc]

/-- The branch of `point_on_line` for a horizontal segment of squared length at least 1. -/
lemma pol_horizontal_iff (pt : point_2d K) (l : line K) (hlen : ¬ line_length_squared l < 1)
    (hnv : l.end_point.x ≠ l.start_point.x) (hh : l.end_point.y = l.start_point.y) :
    point_on_line pt l = true ↔
      l.start_point.y - 9 / 10 ≤ pt.y ∧ pt.y ≤ l.start_point.y + 9 / 10 ∧
        min l.start_point.x l.end_point.x ≤ pt.x ∧
        pt.x ≤ max l.start_point.x l.end_point.x := by
  simp only [point_on_line, hlen, if_false, hnv, hh, if_true, simple_comparison_y_same,
    Bool.and_eq_true, decide_eq_true_eq, SMALL, MIN_eq_min, MAX_eq_max, ge_iff_le, and_assoc]

/-- The branch of `point_on_line` for a sloped segment of squared length at least 1. -/
lemma pol_sloped_iff (pt : point_2d K) (l : line K) (hlen : ¬ line_length_squared l < 1)
    (hnv : l.end_point.x ≠ l.start_point.x) (hnh : l.end_point.y ≠ l.start_point.y) :
    point_on_line pt l = true ↔
      pt.x - 9 / 10 ≤ (pt.y - line_intercept l) / line_slope l ∧
        (pt.y - line_intercept l) / line_slope l ≤ pt.x + 9 / 10 ∧
        pt.y - 9 / 10 ≤ line_slope l * pt.x + line_intercept l ∧
        line_slope l * pt.x + line_intercept l ≤ pt.y + 9 / 10 ∧ in_bounding_box pt l := by
  simp only [point_on_line, hlen, if_false, hnv, hnh, Bool.and_eq_true, decide_eq_true_eq,
    point_in_rectangle_around_iff, SMALL, line_intercept, line_slope, ge_iff_le, and_assoc]

end SegmentLemmas

section SegmentTheorems

variable {K : Type} [LinearOrderedField K] [FloorRing K]

/-- C18: on a segment of squared length at least 1, every point `start + t * (end - start)`
with `0 ≤ t ≤ 1` makes `point_on_line` return true; on a segment of squared length less
than 1 this can fail: the midpoint `(1.0, 1.0)` of `(0.9, 1.05)-(1.1, 0.95)` is rejected. -/
theorem point_on_line_complete :
    (∀ (l : line K) (pt : point_2d K), 1 ≤ line_length_squared l →
        on_segment l.start_point l.end_point pt → point_on_line pt l = true) ∧
      (line_length_squared (⟨⟨9 / 10, 21 / 20⟩, ⟨11 / 10, 19 / 20⟩⟩ : line ℚ) < 1 ∧
        on_segment (⟨9 / 10, 21 / 20⟩ : point_2d ℚ) ⟨11 / 10, 19 / 20⟩ ⟨1, 1⟩ ∧
        point_on_line (⟨1, 1⟩ : point_2d ℚ) ⟨⟨9 / 10, 21 / 20⟩, ⟨11 / 10, 19 / 20⟩⟩ = false) := by
  refine ⟨?_, by norm_num [line_length_squared], ⟨1 / 2, by norm_num, by norm_num,
    by norm_num, by norm_num⟩, ?_⟩
  · rintro l pt hlen ⟨t, h0, h1, hx, hy⟩
    have hlen2 : ¬ line_length_squared l < 1 := not_lt.mpr hlen
    have bx := convex_between l.start_point.x l.end_point.x t h0 h1
    have hby := convex_between l.start_point.y l.end_point.y t h0 h1
    rw [← hx] at bx
    rw [← hy] at hby
    by_cases hv : l.end_point.x = l.start_point.x
    · rw [pol_vertical_iff pt l hlen2 hv]
      have e : pt.x = l.start_point.x := by rw [hx, hv]; ring
      exact ⟨by rw [e]; linarith, by rw [e]; linarith, hby.1, hby.2⟩
    · by_cases hh : l.end_point.y = l.start_point.y
      · rw [pol_horizontal_iff pt l hlen2 hv hh]
        have e : pt.y = l.start_point.y := by rw [hy, hh]; ring
        exact ⟨by rw [e]; linarith, by rw [e]; linarith, bx.1, bx.2⟩
      · rw [pol_sloped_iff pt l hlen2 hv hh]
        have e1 : line_slope l * pt.x + line_intercept l = pt.y := by
          rw [hx, hy]; exact line_through_param l t hv
        have e2 : (pt.y - line_intercept l) / line_slope l = pt.x := by
          rw [hx, hy]; exact line_through_param_inv l t hv hh
        rw [e1, e2]
        exact ⟨by linarith, by linarith, by linarith, by linarith, bx.1, bx.2, hby.1, hby.2⟩
  · have t0 : ⌊(9 / 10 : ℚ)⌋ = 0 := by rw [Int.floor_eq_iff]; norm_num
    have t1 : ⌊(11 / 10 : ℚ)⌋ = 1 := by rw [Int.floor_eq_iff]; norm_num
    have t2 : ⌊(19 / 20 : ℚ)⌋ = 0 := by rw [Int.floor_eq_iff]; norm_num
    have t3 : ⌊(21 / 20 : ℚ)⌋ = 1 := by rw [Int.floor_eq_iff]; norm_num
    norm_num [point_on_line, line_length_squared, same_point, static_cast_int, t0, t1, t2, t3]

/-- Witness for C18: the midpoint `(5, 5)` of the segment `(0,0)-(10,10)` is accepted. -/
theorem point_on_line_complete_witness :
    point_on_line (⟨5, 5⟩ : point_2d ℚ) ⟨⟨0, 0⟩, ⟨10, 10⟩⟩ = true :=
  (@point_on_line_complete ℚ _ _).1 ⟨⟨0, 0⟩, ⟨10, 10⟩⟩ ⟨5, 5⟩
    (by norm_num [line_length_squared])
    ⟨1 / 2, by norm_num, by norm_num, by norm_num, by norm_num⟩

/-- C19: on a segment of squared length at least 1, a point accepted by `point_on_line` is
within distance `0.9` of some point `q` of the segment:
`(q.x - pt.x)^2 + (q.y - pt.y)^2 ≤ 0.81`. -/
theorem point_on_line_sound (pt : point_2d K) (l : line K) (hlen : 1 ≤ line_length_squared l)
    (h : point_on_line pt l = true) :
    ∃ q : point_2d K, on_segment l.start_point l.end_point q ∧
      (q.x - pt.x) ^ 2 + (q.y - pt.y) ^ 2 ≤ 81 / 100 := by
  have hlen2 : ¬ line_length_squared l < 1 := not_lt.mpr hlen
  by_cases hv : l.end_point.x = l.start_point.x
  · obtain ⟨h1, h2, h3, h4⟩ := (pol_vertical_iff pt l hlen2 hv).mp h
    have hne : l.start_point.y ≠ l.end_point.y := by
      intro he
      apply hlen2
      unfold line_length_squared
      rw [hv, he]
      norm_num
    obtain ⟨p0, p1, pe⟩ := between_param _ _ pt.y hne h3 h4
    refine ⟨⟨l.start_point.x, pt.y⟩, ⟨_, p0, p1, by rw [hv]; ring, pe⟩, ?_⟩
    have hs := sq_le_of_within pt.x l.start_point.x h1 h2
    have e : (l.start_point.x - pt.x) ^ 2 + (pt.y - pt.y) ^ 2 = (pt.x - l.start_point.x) ^ 2 := by
      ring
    rw [e]; exact hs
  · have hnx : l.start_point.x ≠ l.end_point.x := fun he => hv he.symm
    by_cases hh : l.end_point.y = l.start_point.y
    · obtain ⟨h1, h2, h3, h4⟩ := (pol_horizontal_iff pt l hlen2 hv hh).mp h
      obtain ⟨p0, p1, pe⟩ := between_param _ _ pt.x hnx h3 h4
      refine ⟨⟨pt.x, l.start_point.y⟩, ⟨_, p0, p1, pe, by rw [hh]; ring⟩, ?_⟩
      have hs := sq_le_of_within pt.y l.start_point.y h1 h2
      have e : (pt.x - pt.x) ^ 2 + (l.start_point.y - pt.y) ^ 2
          = (pt.y - l.start_point.y) ^ 2 := by ring
      rw [e]; exact hs
    · obtain ⟨-, -, h3, h4, b1, b2, -, -⟩ := (pol_sloped_iff pt l hlen2 hv hh).mp h
      obtain ⟨p0, p1, pe⟩ := between_param _ _ pt.x hnx b1 b2
      refine ⟨⟨pt.x, line_slope l * pt.x + line_intercept l⟩, ⟨_, p0, p1, pe, ?_⟩, ?_⟩
      · have e := line_through_param l ((pt.x - l.start_point.x)
          / (l.end_point.x - l.start_point.x)) hv
        rw [← pe] at e
        exact e
      · have hs := sq_le_of_within (line_slope l * pt.x + line_intercept l) pt.y h3 h4
        have e : (pt.x - pt.x) ^ 2 + (line_slope l * pt.x + line_intercept l - pt.y) ^ 2
            = (line_slope l * pt.x + line_intercept l - pt.y) ^ 2 := by ring
        rw [e]; exact hs

/-- Witness for C19: the point `(5, 5.9)`, accepted on the segment `(0,0)-(10,10)`, is
within `0.9` of a point of the segment. -/
theorem point_on_line_sound_witness :
    ∃ q : point_2d ℚ, on_segment (⟨0, 0⟩ : point_2d ℚ) ⟨10, 10⟩ q ∧
      (q.x - 5) ^ 2 + (q.y - 59 / 10) ^ 2 ≤ 81 / 100 :=
  point_on_line_sound (⟨5, 59 / 10⟩ : point_2d ℚ) ⟨⟨0, 0⟩, ⟨10, 10⟩⟩
    (by norm_num [line_length_squared])
    (by norm_num [point_on_line, line_length_squared, SMALL, point_in_rectangle,
      rectangle_around, rectangle_left, rectangle_right, rectangle_top, rectangle_bottom,
      MIN, MAX])

/-- C20: `point_on_line` does not depend on the direction of the segment. -/
theorem point_on_line_swap (pt a b : point_2d K) :
    point_on_line pt ⟨a, b⟩ = point_on_line pt ⟨b, a⟩ := by
  have hsw := line_length_squared_swap a b
  by_cases hlen : line_length_squared (⟨a, b⟩ : line K) < 1
  · rw [pol_short_eq pt ⟨a, b⟩ hlen, pol_short_eq pt ⟨b, a⟩ (by rw [hsw]; exact hlen)]
    exact Bool.or_comm _ _
  · have hlen2 : ¬ line_length_squared (⟨b, a⟩ : line K) < 1 := by rw [hsw]; exact hlen
    rw [Bool.eq_iff_iff]
    by_cases hv : b.x = a.x
    · rw [pol_vertical_iff pt ⟨a, b⟩ hlen hv, pol_vertical_iff pt ⟨b, a⟩ hlen2 hv.symm]
      simp only [hv, min_comm a.y b.y, max_comm a.y b.y]
    · have hv2 : a.x ≠ b.x := fun he => hv he.symm
      by_cases hh : b.y = a.y
      · rw [pol_horizontal_iff pt ⟨a, b⟩ hlen hv hh,
          pol_horizontal_iff pt ⟨b, a⟩ hlen2 hv2 hh.symm]
        simp only [hh, min_comm a.x b.x, max_comm a.x b.x]
      · have hh2 : a.y ≠ b.y := fun he => hh he.symm
        have hx : b.x - a.x ≠ 0 := sub_ne_zero.mpr hv
        have hx2 : a.x - b.x ≠ 0 := sub_ne_zero.mpr hv2
        have em : line_slope (⟨b, a⟩ : line K) = line_slope ⟨a, b⟩ := by
          unfold line_slope
          rw [div_eq_div_iff hx2 hx]
          ring
        have ec : line_intercept (⟨b, a⟩ : line K) = line_intercept ⟨a, b⟩ := by
          unfold line_intercept
          rw [em]
          unfold line_slope
          field_simp
          ring
        have eb : in_bounding_box pt (⟨b, a⟩ : line K) ↔ in_bounding_box pt ⟨a, b⟩ := by
          simp only [in_bounding_box, min_comm a.x b.x, max_comm a.x b.x, min_comm a.y b.y,
            max_comm a.y b.y]
        rw [pol_sloped_iff pt ⟨a, b⟩ hlen hv hh, pol_sloped_iff pt ⟨b, a⟩ hlen2 hv2 hh2,
          em, ec, eb]

end SegmentTheorems
end SplashKit
